import Mathlib

/-!
Verification development for the UTEM file-age application.

The program (src/app/main.cpp, src/app/Edad.h, and the implementation file of
namespace `edad`) reads a text file of ISO birth dates, computes a decimal age
for each line, and aggregates a concurrent histogram of truncated integer ages.

Modelling conventions of this shallow embedding:
* C++ `long long` / `int` values are modelled as `Int` (signed overflow is
  undefined behaviour in the source, so no wrap is modelled); C++ `unsigned int`
  values are modelled as `Nat` values below `2 ^ 32` with every arithmetic
  operation reduced modulo `2 ^ 32` (`u32`), as unsigned arithmetic is defined
  to wrap.  Consecutive unsigned operations are reduced by a single final
  `% u32` per compound expression, which is pointwise equal to reducing after
  every operation, and unsigned subtraction `x - y` is written `x + (u32 - y)`
  before the reduction.
* C++ `double` arithmetic in `edad::calcular` is a single subtraction and a
  single division; it is modelled exactly over `ℚ`.
* Functions that throw (`std::invalid_argument` from `edad::parsear_fecha_iso`
  and `std::stoi`) are modelled with `Except` / `Option`.
* Strings are modelled as `List Char`.
-/

/-- `2 ^ 32`, the modulus of C++ `unsigned int` arithmetic. -/
def u32 : Nat := 4294967296

/-- Embedding of `edad::fecha_a_dias` (Howard Hinnant's `days_from_civil`):

```cpp
long long edad::fecha_a_dias(long long anio, unsigned int mes, unsigned int dia) noexcept {
    anio -= mes <= 2;
    const long long era = (anio >= 0 ? anio : anio - 399) / 400;
    const unsigned anio_era = static_cast<unsigned>(anio - era * 400);
    const unsigned dia_anio = (153 * (mes + (mes > 2 ? -3 : 9)) + 2) / 5 + dia - 1;
    const unsigned dias_era = anio_era * 365 + anio_era / 4 - anio_era / 100 + dia_anio;
    return era * 146097 + static_cast<long long>(dias_era) - 719468;
}
```

C++ `/` on `long long` truncates toward zero (`Int.tdiv`); the conversion
`static_cast<unsigned>` of a `long long` is reduction mod `2 ^ 32`; `-3`
converted to `unsigned` is `u32 - 3`; unsigned `- 1` is `+ (u32 - 1)` mod
`u32`.  `mes` and `dia` hold the unsigned argument values (below `u32`). -/
def fecha_a_dias (anio : Int) (mes dia : Nat) : Int :=
  let anio2 : Int := anio - (if mes ≤ 2 then 1 else 0)
  let era : Int := Int.tdiv (if 0 ≤ anio2 then anio2 else anio2 - 399) 400
  let anio_era : Nat := ((anio2 - era * 400) % (u32 : Int)).toNat
  let dia_anio : Nat :=
    ((153 * ((mes + (if 2 < mes then u32 - 3 else 9)) % u32) + 2) % u32 / 5
      + dia + (u32 - 1)) % u32
  let dias_era : Nat :=
    (anio_era * 365 + anio_era / 4 + (u32 - anio_era / 100) + dia_anio) % u32
  era * 146097 + (dias_era : Int) - 719468

/-- The whitespace characters skipped by `std::stoi` (via `strtol`, default C
locale `isspace`): space, `\t`, `\n`, `\v`, `\f`, `\r`. -/
def esEspacioC (c : Char) : Bool :=
  c = ' ' ∨ c = '\t' ∨ c = '\n' ∨ c = '\x0b' ∨ c = '\x0c' ∨ c = '\r'

/-- Numeric value of a list of decimal digit characters, most significant
first, as accumulated by `strtol`. -/
def valorDigitos (cs : List Char) : Nat :=
  cs.foldl (fun a c => 10 * a + (c.toNat - 48)) 0

/-- Embedding of `std::stoi` (base 10) on the short fields cut out by
`edad::parsear_fecha_iso`: skip leading whitespace, accept one optional sign,
then a nonempty run of decimal digits, ignoring anything after the run;
`none` models the `std::invalid_argument` thrown when no digits are found.
The fields here are at most 4 characters long, so the `std::out_of_range`
overflow case of `stoi` cannot occur and is not modelled. -/
def stoi (cs : List Char) : Option Int :=
  match cs.dropWhile esEspacioC with
  | [] => none
  | c :: resto =>
    if c = '-' then
      let t := resto.takeWhile Char.isDigit
      if t.isEmpty then none else some (-(valorDigitos t : Int))
    else
      let t := (if c = '+' then resto else c :: resto).takeWhile Char.isDigit
      if t.isEmpty then none else some ((valorDigitos t : Int))

/-- The two `std::invalid_argument` sources inside `edad::parsear_fecha_iso`:
the explicit structural check (`formato`) and a failing `std::stoi`
(`conversion`).  Both are the same C++ exception type. -/
inductive ErrorFormato where
  | formato
  | conversion
deriving DecidableEq

/-- Embedding of `edad::parsear_fecha_iso`:

```cpp
std::tuple<int, int, int> edad::parsear_fecha_iso(const std::string& texto) {
    if (texto.size() != 10 || texto[4] != '-' || texto[7] != '-') {
        throw std::invalid_argument("Formato inválido; se espera YYYY-MM-DD");
    }
    int anio = std::stoi(texto.substr(0, 4));
    int mes = std::stoi(texto.substr(5, 2));
    int dia = std::stoi(texto.substr(8, 2));
    return {anio, mes, dia};
}
```
-/
def parsear_fecha_iso (texto : List Char) :
    Except ErrorFormato (Int × Int × Int) :=
  if texto.length ≠ 10 ∨ texto.get? 4 ≠ some '-' ∨ texto.get? 7 ≠ some '-' then
    Except.error ErrorFormato.formato
  else
    match stoi (texto.take 4), stoi ((texto.drop 5).take 2),
        stoi ((texto.drop 8).take 2) with
    | some anio, some mes, some dia => Except.ok (anio, mes, dia)
    | _, _, _ => Except.error ErrorFormato.conversion

/-- The `int → unsigned int` conversion applied when the parsed month and day
are passed to `edad::fecha_a_dias`: reduction mod `2 ^ 32`. -/
def aU32 (x : Int) : Nat := (x % (u32 : Int)).toNat

/-- The calendar day that `edad::calcular` obtains internally from
`std::time(nullptr)` + `localtime`: `tm_year + 1900` (as `long long`),
`tm_mon + 1` and `tm_mday` (converted to `unsigned`).  `edad::calcular` reads
this ambient state itself; the embedding passes it explicitly. -/
structure FechaLocal where
  anio : Int
  mes : Nat
  dia : Nat

/-- Embedding of `edad::calcular`: parse the birth date (propagating the
parser's exception unchanged), convert both the birth date and the
clock-derived current date with `edad::fecha_a_dias`, and return
`(dias_hoy - dias_nacimiento) / 365.2425`.  The `double` quotient is modelled
exactly over `ℚ`, with `365.2425` the literal rational `3652425 / 10000`. -/
def calcular (hoy : FechaLocal) (texto : List Char) : Except ErrorFormato ℚ :=
  match parsear_fecha_iso texto with
  | Except.error e => Except.error e
  | Except.ok (anio, mes, dia) =>
    let dias_nacimiento := fecha_a_dias anio (aU32 mes) (aU32 dia)
    let dias_hoy := fecha_a_dias hoy.anio hoy.mes hoy.dia
    Except.ok (((dias_hoy - dias_nacimiento : Int) : ℚ) / (3652425 / 10000))

/-- C++ `static_cast<int>` on a `double`: truncation toward zero, exact on a
rational (`Int.tdiv` of numerator by denominator). -/
def qtrunc (e : ℚ) : Int := Int.tdiv e.num (e.den : Int)

/-- What one consumer iteration of `main.cpp` does with one dequeued line:

```cpp
if (fecha && !fecha->empty()) {
    double e = edad::calcular(*fecha);
    if (!std::isnan(e) && e >= 0.0) {
        int clave = static_cast<int>(e);
        if (clave >= 0 && clave <= 130) { /* increment bucket clave */ }
    }
}
```

`lanza` records that `edad::calcular` threw (the exception is not caught
anywhere in `main`); `conteo b` records an increment of bucket `b`; `nada`
records a line processed without an increment.  `edad::calcular` never
returns NaN (it throws instead), so the `isnan` test is never true. -/
inductive ProcOutcome where
  | lanza
  | nada
  | conteo (b : Nat)
deriving DecidableEq

/-- The processing outcome of one input line, as a function of the line text
and the clock date read during the run. -/
def outcome (hoy : FechaLocal) (l : List Char) : ProcOutcome :=
  if l.isEmpty then ProcOutcome.nada
  else
    match calcular hoy l with
    | Except.error _ => ProcOutcome.lanza
    | Except.ok e =>
      if 0 ≤ e then
        let clave := qtrunc e
        if 0 ≤ clave ∧ clave ≤ 130 then ProcOutcome.conteo clave.toNat
        else ProcOutcome.nada
      else ProcOutcome.nada

/-- Local state of one consumer thread of `main.cpp`'s `for (;;)` loop:
`run` = at the top of the loop, about to `pop`; `hold l` = popped line `l`,
about to process it; `saw` = `pop` failed and `terminado` was loaded `true`,
about to evaluate `cola.empty()`; `stuck` = an exception escaped
`edad::calcular` (the thread never reaches the loop exit); `exitd` = the
`break` was taken. -/
inductive Cons where
  | run
  | hold (l : List Char)
  | saw
  | stuck
  | exitd
deriving DecidableEq

/-- Global state of the producer–consumer pipeline of `main.cpp`: the lines
the producer has not yet pushed, the `terminado` flag, the FIFO contents of
the `boost::lockfree::queue`, the local state of each consumer, and the
histogram (bucket → count) held by the `concurrent_flat_map`. -/
structure PState where
  input : List (List Char)
  term : Bool
  queue : List (List Char)
  cons : List Cons
  hist : Nat → Nat

/-- One atomic increment of histogram bucket `b`
(`mapa.try_emplace(clave, 0); mapa.visit(clave, ++par.second)` — the per-key
exclusive section makes the read-increment-write one atomic event). -/
def bump (h : Nat → Nat) (b : Nat) : Nat → Nat :=
  Function.update h b (h b + 1)

/-- Interleaving semantics of the pipeline, parametrised by the per-line
processing function `f` and the queue capacity `cap`.  Producer steps:
`push` (a successful `cola.push`, only while `terminado` is still false —
program order of the single producer — and only when the queue has room) and
`signal` (the single `terminado.store(true, release)` after the input is
exhausted; a failed file open is the run whose read line list is empty).
Consumer steps mirror the loop in `main.cpp` lines 191–218: a successful
`pop`, a failed `pop` that then loads `terminado` as `true`, the two results
of the subsequent `cola.empty()` check, and the three processing outcomes.
A failed `pop` that loads `terminado` as `false` re-enters `run` without
changing the state and therefore needs no transition.  The release/acquire
pairing on `terminado` is reflected by every consumer reading the current
value of `term`. -/
inductive Paso (f : List Char → ProcOutcome) (cap : Nat) : PState → PState → Prop where
  | push : ∀ s l ls, s.input = l :: ls → s.term = false → s.queue.length < cap →
      Paso f cap s { s with input := ls, queue := s.queue ++ [l] }
  | signal : ∀ s, s.input = [] → s.term = false →
      Paso f cap s { s with term := true }
  | pop : ∀ s i l ls, s.cons.get? i = some Cons.run → s.queue = l :: ls →
      Paso f cap s { s with queue := ls, cons := s.cons.set i (Cons.hold l) }
  | falloVeTerm : ∀ s i, s.cons.get? i = some Cons.run → s.queue = [] →
      s.term = true → Paso f cap s { s with cons := s.cons.set i Cons.saw }
  | veVacia : ∀ s i, s.cons.get? i = some Cons.saw → s.queue = [] →
      Paso f cap s { s with cons := s.cons.set i Cons.exitd }
  | veNoVacia : ∀ s i l ls, s.cons.get? i = some Cons.saw → s.queue = l :: ls →
      Paso f cap s { s with cons := s.cons.set i Cons.run }
  | procesaCuenta : ∀ s i l b, s.cons.get? i = some (Cons.hold l) →
      f l = ProcOutcome.conteo b →
      Paso f cap s { s with cons := s.cons.set i Cons.run, hist := bump s.hist b }
  | procesaNada : ∀ s i l, s.cons.get? i = some (Cons.hold l) →
      f l = ProcOutcome.nada →
      Paso f cap s { s with cons := s.cons.set i Cons.run }
  | procesaExcepcion : ∀ s i l, s.cons.get? i = some (Cons.hold l) →
      f l = ProcOutcome.lanza →
      Paso f cap s { s with cons := s.cons.set i Cons.stuck }

/-- The pipeline's initial state: all input lines unread, flag clear, queue
empty, `n` consumers at the top of their loops, empty histogram. -/
def inicial (lineas : List (List Char)) (n : Nat) : PState :=
  { input := lineas, term := false, queue := [], cons := List.replicate n Cons.run,
    hist := fun _ => 0 }

/-- Reachability under the interleaving semantics. -/
def Alcanzable (f : List Char → ProcOutcome) (cap : Nat) : PState → PState → Prop :=
  Relation.ReflTransGen (Paso f cap)

/-- Whether a processing outcome is a histogram increment. -/
def esConteo (o : ProcOutcome) : Bool :=
  match o with
  | ProcOutcome.conteo _ => true
  | _ => false

/-- Number of lines of `ls` whose processing produces a valid, in-range age
(i.e. a histogram increment). -/
def cuentaValidas (f : List Char → ProcOutcome) (ls : List (List Char)) : Nat :=
  ls.countP (fun l => esConteo (f l))

/-- The line a consumer currently owns, if any. -/
def enMano (c : Cons) : Option (List Char) :=
  match c with
  | Cons.hold l => some l
  | _ => none

/-- All lines currently owned by consumers (popped but not yet processed). -/
def enManos (cs : List Cons) : List (List Char) := cs.filterMap enMano

/-- Total of all counts of the histogram over the bucket domain `[0, 130]`. -/
def sumaHist (h : Nat → Nat) : Nat := ∑ b ∈ Finset.range 131, h b

/-- Process outcome of the whole program, exit-code-wise.  `abortado` models
`std::terminate` (abnormal termination): `edad::calcular` throws
`std::invalid_argument` on a malformed line, `main` has no handler, and an
exception escaping an OpenMP parallel region (or any thread) terminates the
process.  `exito` models `return EXIT_SUCCESS`. -/
inductive Salida where
  | exito
  | abortado
deriving DecidableEq

/-- Whether processing line `l` raises the uncaught exception: the line is
nonempty (empty lines are skipped before `edad::calcular` is called) and
`edad::calcular` throws. -/
def lineaLanza (hoy : FechaLocal) (l : List Char) : Bool :=
  if l.isEmpty then false
  else
    match calcular hoy l with
    | Except.error _ => true
    | Except.ok _ => false

/-- Exit-code summary of `main` (both `src/app/main.cpp` and the variant in
`src/app/Edad.h`): without a path argument the banner is printed and the
process exits successfully; with a path that cannot be opened (`archivo =
none`) a diagnostic goes to `stderr`, termination is signalled, and the
process still exits successfully with an empty histogram; with readable
content, the process aborts iff some line makes `edad::calcular` throw
(the exception is uncaught), and otherwise returns `EXIT_SUCCESS`. -/
def mainSalida (tieneRuta : Bool) (archivo : Option (List (List Char)))
    (hoy : FechaLocal) : Salida :=
  if tieneRuta then
    match archivo with
    | none => Salida.exito
    | some lineas =>
      if lineas.any (lineaLanza hoy) then Salida.abortado else Salida.exito
  else Salida.exito

/-- Average-year day-count polynomial underlying Hinnant's algorithm:
`gdays a` is the day-count contribution of `a` whole (March-based) years,
with the Gregorian leap corrections.  `/` is `Int.ediv`, which is floored
division for the positive divisors used here. -/
def gdays (a : Int) : Int := 365 * a + a / 4 - a / 100 + a / 400

/-- Day of year (0-based, March-based) of month `m`, day `d`, for months in
`[1, 12]` and days `≥ 1` — the wrap-free value of the unsigned day-of-year
expression of `edad::fecha_a_dias`. -/
def doyN (m d : Nat) : Nat :=
  (153 * (if 2 < m then m - 3 else m + 9) + 2) / 5 + d - 1

/-- Proleptic Gregorian leap-year rule. -/
def bisiesto (y : Int) : Prop := (y % 4 = 0 ∧ y % 100 ≠ 0) ∨ y % 400 = 0

instance : DecidablePred bisiesto := fun y => by
  unfold bisiesto; infer_instance

/-- Length of month `m` of proleptic Gregorian year `y` (used to state which
nominal `(month, day)` pairs are actual calendar dates). -/
def diasMes (y : Int) (m : Nat) : Nat :=
  if m = 2 then (if bisiesto y then 29 else 28)
  else if m = 4 ∨ m = 6 ∨ m = 9 ∨ m = 11 then 30 else 31

/-- Modelled from the spec: `days_from_civil` as §4.1 words it — shift the
year by one if month ≤ 2; era index by floored division by 400 (`Int.ediv`
is floored division for the positive divisor 400); year-within-era;
day-within-year via the integer formula `(153*(m + (m>2 ? -3 : 9)) + 2)/5
+ d - 1`; combine with the leap correction `/4 - /100` on the year-within-era
and subtract the offset that maps day-count 0 to 1970-01-01. -/
def days_from_civil_spec (y : Int) (m d : Nat) : Int :=
  let ys := y - (if m ≤ 2 then 1 else 0)
  let era := ys / 400
  let yoe := ys - era * 400
  let doy := (153 * ((m : Int) + (if 2 < m then -3 else 9)) + 2) / 5 + (d : Int) - 1
  let doe := yoe * 365 + yoe / 4 - yoe / 100 + doy
  era * 146097 + doe - 719468

/-- Modelled from the spec (§4.1 and claim wording): the strict format
condition — exactly 10 characters, `-` at positions 4 and 7, decimal digits
at the eight remaining positions. -/
def formatoEstricto (t : List Char) : Bool :=
  t.length = 10 && (t.getD 4 ' ') = '-' && (t.getD 7 ' ') = '-' &&
    [0, 1, 2, 3, 5, 6, 8, 9].all (fun i => (t.getD i ' ').isDigit)

/-- Contribution of one consumer's owned line to the count of valid lines. -/
def valHold (f : List Char → ProcOutcome) (c : Cons) : Nat :=
  match c with
  | Cons.hold l => if esConteo (f l) then 1 else 0
  | _ => 0

/-- Basic control invariant of the pipeline: the termination flag is set only
after the producer drained its input, and any consumer past the `terminado`
check (or already exited) has indeed observed the flag set. -/
def InvBasica (s : PState) : Prop :=
  (s.term = true → s.input = []) ∧
  (∀ c ∈ s.cons, (c = Cons.saw ∨ c = Cons.exitd) → s.term = true)

/-- Conservation invariant: histogram total plus the valid lines still
unpushed, buffered, or owned by a consumer is constant. -/
def InvConteo (f : List Char → ProcOutcome) (K : Nat) (s : PState) : Prop :=
  sumaHist s.hist + cuentaValidas f s.input + cuentaValidas f s.queue
    + cuentaValidas f (enManos s.cons) = K

/-- Exit invariant: once every consumer of a nonempty pool has exited, the
queue is empty. -/
def InvSalida (s : PState) : Prop :=
  (∃ c ∈ s.cons, c = Cons.exitd) → (∀ c ∈ s.cons, c = Cons.exitd) → s.queue = []

theorem era_trick (a : Int) :
    Int.tdiv (if 0 ≤ a then a else a - 399) 400 = a / 400 := by
  split_ifs with h
  · exact Int.tdiv_eq_ediv h (by norm_num)
  · have h2 : a - 399 = -(399 - a) := by ring
    rw [h2, Int.neg_tdiv, Int.tdiv_eq_ediv (by omega) (by norm_num)]
    omega

theorem fecha_a_dias_normal (y : Int) (m d : Nat) (hm1 : 1 ≤ m) (hm2 : m ≤ 12)
    (hd1 : 1 ≤ d) (hd2 : d ≤ 31) :
    fecha_a_dias y m d =
      gdays (y - if m ≤ 2 then 1 else 0) + (doyN m d : Int) - 719468 := by
  simp only [fecha_a_dias, gdays, doyN, u32]
  rw [era_trick]
  simp only [Nat.cast_ofNat]
  rcases le_or_lt m 2 with hm | hm
  · simp only [if_pos hm, if_neg (show ¬ 2 < m from by omega)]
    rw [show (m + 9) % 4294967296 = m + 9 from by omega]
    rw [show (153 * (m + 9) + 2) % 4294967296 = 153 * (m + 9) + 2 from by omega]
    rw [show ((y - 1 - (y - 1) / 400 * 400) % (4294967296 : Int)).toNat
          = ((y - 1) % 400).toNat from by omega]
    have hr : ((y - 1) % 400).toNat ≤ 399 := by omega
    rw [show ((153 * (m + 9) + 2) / 5 + d + (4294967296 - 1)) % 4294967296
          = (153 * (m + 9) + 2) / 5 + d - 1 from by omega]
    rw [show (((y - 1) % 400).toNat * 365 + ((y - 1) % 400).toNat / 4
            + (4294967296 - ((y - 1) % 400).toNat / 100)
            + ((153 * (m + 9) + 2) / 5 + d - 1)) % 4294967296
          = ((y - 1) % 400).toNat * 365 + ((y - 1) % 400).toNat / 4
            - ((y - 1) % 400).toNat / 100
            + ((153 * (m + 9) + 2) / 5 + d - 1) from by omega]
    omega
  · simp only [if_neg (show ¬ m ≤ 2 from by omega), if_pos hm]
    rw [show (m + (4294967296 - 3)) % 4294967296 = m - 3 from by omega]
    rw [show (153 * (m - 3) + 2) % 4294967296 = 153 * (m - 3) + 2 from by omega]
    rw [show ((y - 0 - (y - 0) / 400 * 400) % (4294967296 : Int)).toNat
          = (y % 400).toNat from by omega]
    have hr : (y % 400).toNat ≤ 399 := by omega
    rw [show ((153 * (m - 3) + 2) / 5 + d + (4294967296 - 1)) % 4294967296
          = (153 * (m - 3) + 2) / 5 + d - 1 from by omega]
    rw [show ((y % 400).toNat * 365 + (y % 400).toNat / 4
            + (4294967296 - (y % 400).toNat / 100)
            + ((153 * (m - 3) + 2) / 5 + d - 1)) % 4294967296
          = (y % 400).toNat * 365 + (y % 400).toNat / 4 - (y % 400).toNat / 100
            + ((153 * (m - 3) + 2) / 5 + d - 1) from by omega]
    omega

theorem gdays_lt_gdays (a b : Int) (h : a < b) : gdays a < gdays b := by
  unfold gdays; omega

theorem gdays_paso (y : Int) :
    gdays y = gdays (y - 1) + 365 + (if bisiesto y then 1 else 0) := by
  unfold gdays bisiesto; split_ifs <;> omega

theorem days_spec_normal (y : Int) (m d : Nat) (hm1 : 1 ≤ m) (hm2 : m ≤ 12)
    (hd1 : 1 ≤ d) (hd2 : d ≤ 31) :
    days_from_civil_spec y m d =
      gdays (y - if m ≤ 2 then 1 else 0) + (doyN m d : Int) - 719468 := by
  simp only [days_from_civil_spec, gdays, doyN]
  rcases le_or_lt m 2 with hm | hm
  · simp only [if_pos hm, if_neg (show ¬ 2 < m from by omega)]
    omega
  · simp only [if_neg (show ¬ m ≤ 2 from by omega), if_pos hm]
    omega

/-- Claim C5: for every integer year and month/day values of the data model
(month in `[1, 12]`, day in `[1, 31]`), `edad::fecha_a_dias` is the total,
deterministic day-count function of Hinnant's algorithm exactly as the spec
words it — floored division by 400 for the era (the `(a >= 0 ? a : a - 399) /
400` truncating trick equals floored division, also for negative years), the
day-within-year integer formula, the `/4 - /100` leap correction on the
year-within-era — with the offset mapping day-count 0 to 1970-01-01. -/
theorem fecha_a_dias_correcto : (∀ (y : Int) (m d : Nat), 1 ≤ m → m ≤ 12 → 1 ≤ d → d ≤ 31 →
    fecha_a_dias y m d = days_from_civil_spec y m d) ∧ fecha_a_dias 1970 1 1 = 0 := by
  constructor
  · intro y m d hm1 hm2 hd1 hd2
    rw [fecha_a_dias_normal y m d hm1 hm2 hd1 hd2, days_spec_normal y m d hm1 hm2 hd1 hd2]
  · decide

/-- Witness for C5 at a concrete input. -/
theorem fecha_a_dias_correcto_testigo :
    fecha_a_dias 2024 11 1 = days_from_civil_spec 2024 11 1 :=
  fecha_a_dias_correcto.1 2024 11 1 (by norm_num) (by norm_num) (by norm_num)
    (by norm_num)

/-- Claim C6: `days_from_civil(-1, 3, 1) - days_from_civil(-1, 2, 28)` equals
1: the proleptic Gregorian leap rule holds for negative years through the
floored-division era arithmetic (year `-1` is congruent to 399 mod 400, hence
not a leap year, so February 28 and March 1 are adjacent days). -/
theorem fecha_a_dias_anio_negativo : fecha_a_dias (-1) 3 1 - fecha_a_dias (-1) 2 28 = 1 := by decide

/-- Claim C7, counterexample: the nominal date `2000-04-31` (day 31 in a
30-day month, within the data model's `day : 1..31` range) and the strictly
later calendar date `2000-05-01` are mapped to the *same* day-count, so the
claimed strict order-preservation over month/day values fails as stated. -/
theorem fecha_a_dias_contraejemplo_estricto :
    fecha_a_dias 2000 4 31 = fecha_a_dias 2000 5 1 ∧
    ¬ fecha_a_dias 2000 4 31 < fecha_a_dias 2000 5 1 := by
  constructor <;> decide

theorem diasMes_le_31 (y : Int) (m : Nat) : diasMes y m ≤ 31 := by
  unfold diasMes; split_ifs <;> omega

/-- Claim C7, amended: `edad::fecha_a_dias` is strictly increasing in the
year for every fixed month/day of the data model's ranges, and for a fixed
year a later *actual* calendar date (lexicographically larger `(month, day)`
with each day at most its month's proleptic Gregorian length) has a strictly
larger day-count.  (For in-range but nonexistent dates such as April 31 the
strictness fails, see the counterexample.) -/
theorem fecha_a_dias_monotona :
    (∀ (y1 y2 : Int) (m d : Nat), 1 ≤ m → m ≤ 12 → 1 ≤ d → d ≤ 31 → y1 < y2 →
        fecha_a_dias y1 m d < fecha_a_dias y2 m d) ∧
    (∀ (y : Int) (m1 d1 m2 d2 : Nat), 1 ≤ m1 → m1 ≤ 12 → 1 ≤ m2 → m2 ≤ 12 →
        1 ≤ d1 → d1 ≤ diasMes y m1 → 1 ≤ d2 → d2 ≤ diasMes y m2 →
        (m1 < m2 ∨ (m1 = m2 ∧ d1 < d2)) →
        fecha_a_dias y m1 d1 < fecha_a_dias y m2 d2) := by
  constructor
  · intro y1 y2 m d hm1 hm2 hd1 hd2 hy
    rw [fecha_a_dias_normal y1 m d hm1 hm2 hd1 hd2,
        fecha_a_dias_normal y2 m d hm1 hm2 hd1 hd2]
    have hg := gdays_lt_gdays (y1 - if m ≤ 2 then 1 else 0)
      (y2 - if m ≤ 2 then 1 else 0) (by omega)
    omega
  · intro y m1 d1 m2 d2 hm11 hm12 hm21 hm22 hd11 hd12 hd21 hd22 hlex
    have hd12b : d1 ≤ 31 := le_trans hd12 (diasMes_le_31 y m1)
    have hd22b : d2 ≤ 31 := le_trans hd22 (diasMes_le_31 y m2)
    rw [fecha_a_dias_normal y m1 d1 hm11 hm12 hd11 hd12b,
        fecha_a_dias_normal y m2 d2 hm21 hm22 hd21 hd22b]
    rcases le_or_lt m1 2 with h1 | h1 <;> rcases le_or_lt m2 2 with h2 | h2
    · -- both in the January–February block
      simp only [if_pos h1, if_pos h2]
      have hD : doyN m1 d1 < doyN m2 d2 := by
        unfold doyN
        simp only [if_neg (show ¬ 2 < m1 from by omega),
          if_neg (show ¬ 2 < m2 from by omega)]
        omega
      omega
    · -- m1 in January–February, m2 in March–December
      simp only [if_pos h1, if_neg (show ¬ m2 ≤ 2 from by omega)]
      rw [show y - (0 : Int) = y from by ring, gdays_paso y]
      interval_cases m1
      · have h305 : doyN 1 d1 = 305 + d1 := by unfold doyN; norm_num
        split_ifs <;> omega
      · have h336 : doyN 2 d1 = 336 + d1 := by unfold doyN; norm_num
        have hd1b : d1 ≤ if bisiesto y then 29 else 28 := by
          simpa [diasMes] using hd12
        split_ifs at hd1b ⊢ <;> omega
    · -- m2 < m1 is impossible under the lexicographic hypothesis
      exfalso; omega
    · -- both in the March–December block
      simp only [if_neg (show ¬ m1 ≤ 2 from by omega),
        if_neg (show ¬ m2 ≤ 2 from by omega)]
      have hD : doyN m1 d1 < doyN m2 d2 := by
        rcases hlex with hlt | ⟨heq, hdlt⟩
        · unfold doyN
          simp only [if_pos h1, if_pos h2]
          unfold diasMes at hd12
          interval_cases m1 <;> interval_cases m2 <;> norm_num at hd12 <;> omega
        · subst heq
          unfold doyN
          simp only [if_pos h1]
          omega
      omega

/-- Witness for the amended C7 at concrete inputs (a year step and the
leap-boundary date pair February 28 → March 1 of the non-leap year 2001). -/
theorem fecha_a_dias_monotona_testigo :
    fecha_a_dias 2000 6 15 < fecha_a_dias 2001 6 15 ∧
    fecha_a_dias 2001 2 28 < fecha_a_dias 2001 3 1 :=
  ⟨fecha_a_dias_monotona.1 2000 2001 6 15 (by norm_num) (by norm_num)
      (by norm_num) (by norm_num) (by norm_num),
    fecha_a_dias_monotona.2 2001 2 28 3 1 (by norm_num) (by norm_num)
      (by norm_num) (by norm_num) (by norm_num) (by decide) (by norm_num)
      (by decide) (Or.inl (by norm_num))⟩

theorem digito_cotas (c : Char) (h : c.isDigit = true) :
    48 ≤ c.toNat ∧ c.toNat ≤ 57 := by
  simp [Char.isDigit] at h
  exact h

theorem digito_no_guion (c : Char) (h : c.isDigit = true) : ¬ c = '-' := by
  intro hc; subst hc; exact absurd h (by decide)

theorem digito_no_mas (c : Char) (h : c.isDigit = true) : ¬ c = '+' := by
  intro hc; subst hc; exact absurd h (by decide)

theorem digito_no_espacio (c : Char) (h : c.isDigit = true) : esEspacioC c = false := by
  cases hc : esEspacioC c with
  | false => rfl
  | true =>
    exfalso
    simp [esEspacioC, decide_eq_true_eq] at hc
    rcases hc with h1 | h1 | h1 | h1 | h1 | h1 <;> subst h1 <;> exact absurd h (by decide)

theorem takeWhile_todos (p : Char → Bool) :
    ∀ cs : List Char, (∀ c ∈ cs, p c = true) → cs.takeWhile p = cs := by
  intro cs h
  induction cs with
  | nil => rfl
  | cons c cs ih =>
    rw [List.takeWhile_cons, if_pos (h c (by simp))]
    rw [ih (fun x hx => h x (by simp [hx]))]

theorem stoi_digitos (cs : List Char) (hd : ∀ c ∈ cs, c.isDigit = true)
    (hne : cs ≠ []) : stoi cs = some ((valorDigitos cs : Nat) : Int) := by
  obtain ⟨c, cs2, rfl⟩ := List.exists_cons_of_ne_nil hne
  have hc : c.isDigit = true := hd c (by simp)
  unfold stoi
  rw [List.dropWhile_cons, if_neg (by simp [digito_no_espacio c hc])]
  dsimp only
  rw [if_neg (digito_no_guion c hc), if_neg (digito_no_mas c hc)]
  rw [takeWhile_todos Char.isDigit (c :: cs2) hd]
  simp

theorem valorDigitos_foldl_lt (cs : List Char) :
    ∀ a : Nat, (∀ c ∈ cs, c.isDigit = true) →
      cs.foldl (fun x c => 10 * x + (c.toNat - 48)) a < (a + 1) * 10 ^ cs.length := by
  induction cs with
  | nil => intro a _; simp
  | cons c cs ih =>
    intro a h
    have hc := digito_cotas c (h c (by simp))
    have step := ih (10 * a + (c.toNat - 48)) (fun x hx => h x (by simp [hx]))
    calc (c :: cs).foldl (fun x c => 10 * x + (c.toNat - 48)) a
        = cs.foldl (fun x c => 10 * x + (c.toNat - 48)) (10 * a + (c.toNat - 48)) := rfl
      _ < (10 * a + (c.toNat - 48) + 1) * 10 ^ cs.length := step
      _ ≤ ((a + 1) * 10) * 10 ^ cs.length := by
          have : 10 * a + (c.toNat - 48) + 1 ≤ (a + 1) * 10 := by omega
          exact Nat.mul_le_mul_right _ this
      _ = (a + 1) * 10 ^ (c :: cs).length := by
          rw [List.length_cons, pow_succ]; ring

theorem valorDigitos_lt (cs : List Char) (h : ∀ c ∈ cs, c.isDigit = true) :
    valorDigitos cs < 10 ^ cs.length := by
  simpa [valorDigitos] using valorDigitos_foldl_lt cs 0 h

theorem lista_diez {t : List Char} (h : t.length = 10) :
    ∃ c0 c1 c2 c3 c4 c5 c6 c7 c8 c9,
      t = [c0, c1, c2, c3, c4, c5, c6, c7, c8, c9] := by
  rcases t with _ | ⟨c0, t⟩; · simp at h
  rcases t with _ | ⟨c1, t⟩; · simp at h
  rcases t with _ | ⟨c2, t⟩; · simp at h
  rcases t with _ | ⟨c3, t⟩; · simp at h
  rcases t with _ | ⟨c4, t⟩; · simp at h
  rcases t with _ | ⟨c5, t⟩; · simp at h
  rcases t with _ | ⟨c6, t⟩; · simp at h
  rcases t with _ | ⟨c7, t⟩; · simp at h
  rcases t with _ | ⟨c8, t⟩; · simp at h
  rcases t with _ | ⟨c9, t⟩; · simp at h
  rcases t with _ | ⟨c10, t⟩
  · exact ⟨c0, c1, c2, c3, c4, c5, c6, c7, c8, c9, rfl⟩
  · simp only [List.length_cons, List.length_nil] at h; omega

theorem parsear_estricto_ok (t : List Char) (h : formatoEstricto t = true) :
    parsear_fecha_iso t = Except.ok
      (((valorDigitos (t.take 4) : Nat) : Int), ((valorDigitos ((t.drop 5).take 2) : Nat) : Int),
        ((valorDigitos ((t.drop 8).take 2) : Nat) : Int)) := by
  have hlen : t.length = 10 := by
    simp only [formatoEstricto, Bool.and_eq_true, decide_eq_true_eq] at h
    exact h.1.1.1
  obtain ⟨c0, c1, c2, c3, c4, c5, c6, c7, c8, c9, rfl⟩ := lista_diez hlen
  simp only [formatoEstricto, Bool.and_eq_true, decide_eq_true_eq, List.all_cons,
    List.all_nil, List.getD, List.get?, Option.getD] at h
  obtain ⟨⟨⟨-, h4⟩, h7⟩, hd0, hd1, hd2, hd3, hd5, hd6, hd8, hd9, -⟩ := h
  subst h4; subst h7
  have hstoi1 : stoi [c0, c1, c2, c3] = some ((valorDigitos [c0, c1, c2, c3] : Nat) : Int) := by
    refine stoi_digitos _ ?_ (by simp)
    intro x hx
    simp only [List.mem_cons, List.not_mem_nil, or_false] at hx
    rcases hx with rfl | rfl | rfl | rfl <;> assumption
  have hstoi2 : stoi [c5, c6] = some ((valorDigitos [c5, c6] : Nat) : Int) := by
    refine stoi_digitos _ ?_ (by simp)
    intro x hx
    simp only [List.mem_cons, List.not_mem_nil, or_false] at hx
    rcases hx with rfl | rfl <;> assumption
  have hstoi3 : stoi [c8, c9] = some ((valorDigitos [c8, c9] : Nat) : Int) := by
    refine stoi_digitos _ ?_ (by simp)
    intro x hx
    simp only [List.mem_cons, List.not_mem_nil, or_false] at hx
    rcases hx with rfl | rfl <;> assumption
  unfold parsear_fecha_iso
  rw [if_neg (by simp)]
  show (match stoi [c0, c1, c2, c3], stoi [c5, c6], stoi [c8, c9] with
    | some anio, some mes, some dia => Except.ok (anio, mes, dia)
    | _, _, _ => Except.error ErrorFormato.conversion) = _
  rw [hstoi1, hstoi2, hstoi3]
  rfl

theorem parsear_estructura (t : List Char) (a m d : Int) (h1 : t.length = 10)
    (h4 : t.get? 4 = some '-') (h7 : t.get? 7 = some '-')
    (ha : stoi (t.take 4) = some a) (hm : stoi ((t.drop 5).take 2) = some m)
    (hd : stoi ((t.drop 8).take 2) = some d) :
    parsear_fecha_iso t = Except.ok (a, m, d) := by
  unfold parsear_fecha_iso
  rw [if_neg (by push_neg; exact ⟨h1, h4, h7⟩)]
  rw [ha, hm, hd]

theorem parsear_mal_formato (t : List Char)
    (h : ¬(t.length = 10 ∧ t.get? 4 = some '-' ∧ t.get? 7 = some '-')) :
    parsear_fecha_iso t = Except.error ErrorFormato.formato := by
  unfold parsear_fecha_iso
  rw [if_pos]
  by_cases h1 : t.length = 10
  · by_cases h4 : t.get? 4 = some '-'
    · by_cases h7 : t.get? 7 = some '-'
      · exact absurd ⟨h1, h4, h7⟩ h
      · exact Or.inr (Or.inr h7)
    · exact Or.inr (Or.inl h4)
  · exact Or.inl h1

theorem parsear_conversion (t : List Char)
    (h1 : t.length = 10) (h4 : t.get? 4 = some '-') (h7 : t.get? 7 = some '-')
    (hfail : stoi (t.take 4) = none ∨ stoi ((t.drop 5).take 2) = none ∨
      stoi ((t.drop 8).take 2) = none) :
    parsear_fecha_iso t = Except.error ErrorFormato.conversion := by
  unfold parsear_fecha_iso
  rw [if_neg (by push_neg; exact ⟨h1, h4, h7⟩)]
  rcases hfail with hf | hf | hf
  · rw [hf]
  · rw [hf]
    cases stoi (t.take 4) <;> rfl
  · rw [hf]
    cases stoi (t.take 4) <;> cases stoi ((t.drop 5).take 2) <;> rfl

/-- Claim C2, counterexample: `" 005-01-06"` has 10 characters and dashes at
positions 4 and 7 but a space (not a decimal digit) among the remaining eight
characters; `edad::parsear_fecha_iso` nevertheless *succeeds* with
`(5, 1, 6)` because `std::stoi` skips leading whitespace — refuting the
claimed "succeeds only if all eight remaining characters are digits". -/
theorem parsear_fecha_iso_contraejemplo :
    parsear_fecha_iso (String.toList " 005-01-06") = Except.ok (5, 1, 6) ∧
    formatoEstricto (String.toList " 005-01-06") = false := by
  constructor <;> rfl

/-- Claim C2, amended: `edad::parsear_fecha_iso` succeeds exactly on strings
of 10 characters with `-` at positions 4 and 7 whose three numeric fields are
each accepted by `std::stoi` (optional leading whitespace, optional sign, at
least one digit); in particular every string matching the strict all-digits
format succeeds, any string failing the structural 10-chars/two-dashes check
fails with the explicit format error, and the four examples of the claim
behave as stated: `"2005-1-06"`, `"20050106"` and `""` fail with the format
error while `"2005-01-06"` yields `(2005, 1, 6)`. -/
theorem parsear_fecha_iso_laxo :
    (∀ (t : List Char) (a m d : Int), t.length = 10 → t.get? 4 = some '-' →
        t.get? 7 = some '-' → stoi (t.take 4) = some a →
        stoi ((t.drop 5).take 2) = some m → stoi ((t.drop 8).take 2) = some d →
        parsear_fecha_iso t = Except.ok (a, m, d)) ∧
    (∀ t : List Char, formatoEstricto t = true →
        ∃ a m d, parsear_fecha_iso t = Except.ok (a, m, d)) ∧
    (∀ t : List Char, ¬(t.length = 10 ∧ t.get? 4 = some '-' ∧ t.get? 7 = some '-') →
        parsear_fecha_iso t = Except.error ErrorFormato.formato) ∧
    (∀ t : List Char, t.length = 10 → t.get? 4 = some '-' → t.get? 7 = some '-' →
        stoi (t.take 4) = none ∨ stoi ((t.drop 5).take 2) = none ∨
          stoi ((t.drop 8).take 2) = none →
        parsear_fecha_iso t = Except.error ErrorFormato.conversion) ∧
    parsear_fecha_iso (String.toList "2005-1-06") = Except.error ErrorFormato.formato ∧
    parsear_fecha_iso (String.toList "20050106") = Except.error ErrorFormato.formato ∧
    parsear_fecha_iso (String.toList "") = Except.error ErrorFormato.formato ∧
    parsear_fecha_iso (String.toList "2005-01-06") = Except.ok (2005, 1, 6) := by
  refine ⟨parsear_estructura, ?_, parsear_mal_formato, parsear_conversion, rfl, rfl, rfl, rfl⟩
  intro t h
  exact ⟨_, _, _, parsear_estricto_ok t h⟩

/-- Witness for the amended C2 at concrete inputs. -/
theorem parsear_fecha_iso_laxo_testigo :
    parsear_fecha_iso (String.toList "+005-01-06") = Except.ok (5, 1, 6) ∧
    (∃ a m d, parsear_fecha_iso (String.toList "2005-01-06") = Except.ok (a, m, d)) ∧
    parsear_fecha_iso (String.toList "not-a-date") = Except.error ErrorFormato.formato ∧
    parsear_fecha_iso (String.toList "abcd-01-06") = Except.error ErrorFormato.conversion := by
  refine ⟨?_, ?_, ?_, ?_⟩
  · exact parsear_fecha_iso_laxo.1 _ 5 1 6 rfl rfl rfl rfl rfl rfl
  · exact parsear_fecha_iso_laxo.2.1 _ rfl
  · exact parsear_fecha_iso_laxo.2.2.1 _ (by intro hc; exact absurd hc.2.1 (by decide))
  · exact parsear_fecha_iso_laxo.2.2.2.1 _ rfl rfl rfl (Or.inl rfl)

/-- Claim C10: on every input of exactly 10 characters with `-` at positions
4 and 7 and decimal digits at the eight remaining positions,
`edad::parsear_fecha_iso` returns normally (no exception) and the returned
triple satisfies `year ∈ [0, 9999]`, `month ∈ [0, 99]`, `day ∈ [0, 99]`; in
particular the parser never produces a negative year on this domain. -/
theorem parsear_rangos (t : List Char) (h : formatoEstricto t = true) :
    ∃ a m d, parsear_fecha_iso t = Except.ok (a, m, d) ∧
      0 ≤ a ∧ a ≤ 9999 ∧ 0 ≤ m ∧ m ≤ 99 ∧ 0 ≤ d ∧ d ≤ 99 := by
  have hlen : t.length = 10 := by
    simp only [formatoEstricto, Bool.and_eq_true, decide_eq_true_eq] at h
    exact h.1.1.1
  have hok := parsear_estricto_ok t h
  refine ⟨_, _, _, hok, ?_, ?_, ?_, ?_, ?_, ?_⟩
  all_goals obtain ⟨c0, c1, c2, c3, c4, c5, c6, c7, c8, c9, rfl⟩ := lista_diez hlen
  all_goals
    simp only [formatoEstricto, Bool.and_eq_true, decide_eq_true_eq, List.all_cons,
      List.all_nil, List.getD, List.get?, Option.getD] at h
  all_goals obtain ⟨⟨⟨-, h4⟩, h7⟩, hd0, hd1, hd2, hd3, hd5, hd6, hd8, hd9, -⟩ := h
  · positivity
  · have hb : valorDigitos [c0, c1, c2, c3] < 10 ^ (4 : Nat) := by
      refine valorDigitos_lt _ ?_
      intro x hx
      simp only [List.mem_cons, List.not_mem_nil, or_false] at hx
      rcases hx with rfl | rfl | rfl | rfl <;> assumption
    show ((valorDigitos [c0, c1, c2, c3] : Nat) : Int) ≤ 9999
    norm_num at hb ⊢
    omega
  · positivity
  · have hb : valorDigitos [c5, c6] < 10 ^ (2 : Nat) := by
      refine valorDigitos_lt _ ?_
      intro x hx
      simp only [List.mem_cons, List.not_mem_nil, or_false] at hx
      rcases hx with rfl | rfl <;> assumption
    show ((valorDigitos [c5, c6] : Nat) : Int) ≤ 99
    norm_num at hb ⊢
    omega
  · positivity
  · have hb : valorDigitos [c8, c9] < 10 ^ (2 : Nat) := by
      refine valorDigitos_lt _ ?_
      intro x hx
      simp only [List.mem_cons, List.not_mem_nil, or_false] at hx
      rcases hx with rfl | rfl <;> assumption
    show ((valorDigitos [c8, c9] : Nat) : Int) ≤ 99
    norm_num at hb ⊢
    omega

/-- Witness for C10 at a concrete input. -/
theorem parsear_rangos_testigo :
    ∃ a m d, parsear_fecha_iso (String.toList "2005-01-06") = Except.ok (a, m, d) ∧
      0 ≤ a ∧ a ≤ 9999 ∧ 0 ≤ m ∧ m ≤ 99 ∧ 0 ≤ d ∧ d ≤ 99 :=
  parsear_rangos (String.toList "2005-01-06") rfl

/-- Claim C3: `edad::calcular` fails with exactly the parser's error when and
only when the birth-date text is malformed (in particular it never fails on a
structurally valid but semantically odd date such as month 13), and on
success returns `(reference_days - birth_days) / 365.2425` where both
day-counts come from `edad::fecha_a_dias` (the clock-derived current date as
reference, the parsed fields converted to `unsigned`); modelled exactly over
`ℚ` with `365.2425 = 3652425/10000`. -/
theorem calcular_valor (hoy : FechaLocal) (texto : List Char) (a m d : Int)
    (hp : parsear_fecha_iso texto = Except.ok (a, m, d)) :
    calcular hoy texto = Except.ok
      (((fecha_a_dias hoy.anio hoy.mes hoy.dia
          - fecha_a_dias a (aU32 m) (aU32 d) : Int) : ℚ) / (3652425 / 10000)) := by
  unfold calcular
  rw [hp]

theorem calcular_formula (hoy : FechaLocal) (texto : List Char) :
    (∀ e, calcular hoy texto = Except.error e ↔
        parsear_fecha_iso texto = Except.error e) ∧
    (∀ a m d, parsear_fecha_iso texto = Except.ok (a, m, d) →
        calcular hoy texto = Except.ok
          (((fecha_a_dias hoy.anio hoy.mes hoy.dia
              - fecha_a_dias a (aU32 m) (aU32 d) : Int) : ℚ) / (3652425 / 10000))) := by
  constructor
  · intro e
    unfold calcular
    cases hp : parsear_fecha_iso texto with
    | error e2 => simp
    | ok v => obtain ⟨a, m, d⟩ := v; simp
  · intro a m d hp
    exact calcular_valor hoy texto a m d hp

/-- Witness for C3 at a concrete month-13 date. -/
theorem calcular_formula_testigo :
    calcular ⟨2024, 11, 1⟩ (String.toList "2005-13-06") = Except.ok
      (((fecha_a_dias 2024 11 1 - fecha_a_dias 2005 (aU32 13) (aU32 6) : Int) : ℚ)
        / (3652425 / 10000)) :=
  (calcular_formula ⟨2024, 11, 1⟩ (String.toList "2005-13-06")).2 2005 13 6 rfl

/-- Claim C4, counterexample: `edad::calcular` reads the current date from
the system clock *internally* (`std::time` + `localtime`), so its result does
depend on the clock: with the clock at 2024-11-01 versus 2034-11-01, the same
birth-date text `"2005-01-06"` yields different results — refuting "the
reference date is supplied by the caller … no dependence on the system
clock". -/
theorem calcular_depende_del_reloj :
    calcular ⟨2024, 11, 1⟩ (String.toList "2005-01-06") ≠
    calcular ⟨2034, 11, 1⟩ (String.toList "2005-01-06") := by
  rw [calcular_valor ⟨2024, 11, 1⟩ (String.toList "2005-01-06") 2005 1 6 rfl,
    calcular_valor ⟨2034, 11, 1⟩ (String.toList "2005-01-06") 2005 1 6 rfl]
  intro h
  have h2 := Except.ok.inj h
  have hc : (3652425 / 10000 : ℚ) ≠ 0 := by norm_num
  have h3 := mul_right_cancel₀ hc ((div_eq_div_iff hc hc).mp h2)
  have h4 : (fecha_a_dias 2024 11 1 - fecha_a_dias 2005 (aU32 1) (aU32 6) : Int)
      = (fecha_a_dias 2034 11 1 - fecha_a_dias 2005 (aU32 1) (aU32 6) : Int) := by
    exact_mod_cast h3
  have h5 : fecha_a_dias 2024 11 1 = fecha_a_dias 2034 11 1 := by omega
  exact absurd h5 (by decide)

/-- Claim C4, amended: `edad::calcular` obtains the reference date internally
from the system clock (modelled as the explicit `FechaLocal` argument); it is
deterministic given the birth-date text and that clock date, and its result
depends on the clock date only through its `edad::fecha_a_dias` day-count:
two invocations whose clock dates have equal day-counts give equal results on
every text. -/
theorem calcular_determinista (h1 h2 : FechaLocal) (texto : List Char)
    (hdias : fecha_a_dias h1.anio h1.mes h1.dia = fecha_a_dias h2.anio h2.mes h2.dia) :
    calcular h1 texto = calcular h2 texto := by
  unfold calcular
  cases parsear_fecha_iso texto with
  | error e => rfl
  | ok v => obtain ⟨a, m, d⟩ := v; rw [hdias]

/-- Witness for the amended C4: the clock dates 2024-04-31 (nominal) and
2024-05-01 are distinct triples with equal day-counts and give equal
results. -/
theorem calcular_determinista_testigo :
    calcular ⟨2024, 4, 31⟩ (String.toList "2005-01-06") =
    calcular ⟨2024, 5, 1⟩ (String.toList "2005-01-06") :=
  calcular_determinista ⟨2024, 4, 31⟩ ⟨2024, 5, 1⟩ (String.toList "2005-01-06") (by decide)

/-- Claim C9 (code bug): the exit code is *not* success on every path.  The
open-failure path and the no-argument banner path do exit successfully, but a
nonempty malformed line (e.g. `"not-a-date"`) makes `edad::calcular` throw
`std::invalid_argument`, which no caller in `main` catches; the exception
escaping the OpenMP region terminates the process abnormally — contradicting
`main.cpp`'s own documented contract ("devuelve NaN en fallo; no lanza") and
the spec's non-fatal-line design. -/
theorem main_salida_linea_invalida :
    mainSalida true (some [String.toList "not-a-date"]) ⟨2024, 11, 1⟩ = Salida.abortado ∧
    mainSalida true none ⟨2024, 11, 1⟩ = Salida.exito ∧
    mainSalida false none ⟨2024, 11, 1⟩ = Salida.exito := ⟨rfl, rfl, rfl⟩

theorem cuenta_enManos_cons (f : List Char → ProcOutcome) (c : Cons) (cs : List Cons) :
    cuentaValidas f (enManos (c :: cs)) =
      valHold f c + cuentaValidas f (enManos cs) := by
  cases c <;>
    simp [enManos, enMano, cuentaValidas, valHold, List.filterMap_cons,
      List.countP_cons] <;>
    split_ifs <;> omega

theorem cuenta_enManos_set (f : List Char → ProcOutcome) (cs : List Cons) :
    ∀ (i : Nat) (c0 c1 : Cons), cs.get? i = some c0 →
      cuentaValidas f (enManos (cs.set i c1)) + valHold f c0 =
        cuentaValidas f (enManos cs) + valHold f c1 := by
  induction cs with
  | nil => intro i c0 c1 h; simp at h
  | cons c cs ih =>
    intro i c0 c1 h
    cases i with
    | zero =>
      rw [List.get?_cons_zero] at h
      obtain rfl : c = c0 := Option.some.inj h
      simp only [List.set]
      rw [cuenta_enManos_cons, cuenta_enManos_cons]
      omega
    | succ i =>
      rw [List.get?_cons_succ] at h
      simp only [List.set]
      rw [cuenta_enManos_cons, cuenta_enManos_cons]
      have := ih i c0 c1 h
      omega

theorem suma_bump (h : Nat → Nat) (b : Nat) (hb : b ≤ 130) :
    sumaHist (bump h b) = sumaHist h + 1 := by
  unfold sumaHist bump
  rw [Finset.sum_update_of_mem (by simp; omega)]
  rw [← Finset.sum_erase_add (Finset.range 131) h
    (show b ∈ Finset.range 131 from by simp; omega), Finset.erase_eq]
  omega

theorem enManos_replicate (n : Nat) : enManos (List.replicate n Cons.run) = [] := by
  refine List.filterMap_eq_nil_iff.mpr ?_
  intro c hc
  rw [List.eq_of_mem_replicate hc]
  rfl

theorem paso_basica {f : List Char → ProcOutcome} {cap : Nat} {s s2 : PState}
    (hp : Paso f cap s s2) (hi : InvBasica s) : InvBasica s2 := by
  obtain ⟨h1, h2⟩ := hi
  cases hp with
  | push l ls hin ht hq =>
    refine ⟨fun htt => ?_, fun c hc hor => h2 c hc hor⟩
    rw [ht] at htt; cases htt
  | signal hin ht => exact ⟨fun _ => hin, fun _ _ _ => rfl⟩
  | pop i l ls hci hq =>
    refine ⟨h1, fun c hc hor => ?_⟩
    rcases List.mem_or_eq_of_mem_set hc with hc2 | rfl
    · exact h2 c hc2 hor
    · rcases hor with h | h <;> cases h
  | falloVeTerm i hci hq ht =>
    refine ⟨h1, fun c hc hor => ht⟩
  | veVacia i hci hq =>
    refine ⟨h1, fun c hc hor => h2 Cons.saw (List.get?_mem hci) (Or.inl rfl)⟩
  | veNoVacia i l ls hci hq =>
    refine ⟨h1, fun c hc hor => ?_⟩
    rcases List.mem_or_eq_of_mem_set hc with hc2 | rfl
    · exact h2 c hc2 hor
    · rcases hor with h | h <;> cases h
  | procesaCuenta i l b hci hfb =>
    refine ⟨h1, fun c hc hor => ?_⟩
    rcases List.mem_or_eq_of_mem_set hc with hc2 | rfl
    · exact h2 c hc2 hor
    · rcases hor with h | h <;> cases h
  | procesaNada i l hci hfb =>
    refine ⟨h1, fun c hc hor => ?_⟩
    rcases List.mem_or_eq_of_mem_set hc with hc2 | rfl
    · exact h2 c hc2 hor
    · rcases hor with h | h <;> cases h
  | procesaExcepcion i l hci hfb =>
    refine ⟨h1, fun c hc hor => ?_⟩
    rcases List.mem_or_eq_of_mem_set hc with hc2 | rfl
    · exact h2 c hc2 hor
    · rcases hor with h | h <;> cases h

theorem set_no_exitd (cs : List Cons) (i : Nat) (c0 c1 : Cons)
    (h : cs.get? i = some c0) (hne : c1 ≠ Cons.exitd)
    (hall : ∀ c ∈ cs.set i c1, c = Cons.exitd) : False := by
  have hlt : i < cs.length := (List.get?_eq_some.mp h).1
  have h2 : (cs.set i c1).get? i = some c1 := List.get?_set_eq_of_lt c1 hlt
  exact hne (hall c1 (List.get?_mem h2))

theorem paso_conteo {f : List Char → ProcOutcome} {cap : Nat} {K : Nat} {s s2 : PState}
    (hf : ∀ l b, f l = ProcOutcome.conteo b → b ≤ 130)
    (hp : Paso f cap s s2) (hi : InvConteo f K s) : InvConteo f K s2 := by
  unfold InvConteo at hi ⊢
  cases hp with
  | push l ls hin ht hq =>
    rw [hin] at hi
    dsimp only
    cases hc : esConteo (f l) <;>
      simp only [cuentaValidas, List.countP_cons, List.countP_append, List.countP_nil,
        hc, if_true, if_false, Bool.false_eq_true, ite_true, ite_false] at hi ⊢ <;>
      omega
  | signal hin ht => exact hi
  | pop i l ls hci hq =>
    rw [hq] at hi
    dsimp only
    have hset := cuenta_enManos_set f s.cons i Cons.run (Cons.hold l) hci
    simp only [valHold] at hset
    cases hc : esConteo (f l) <;>
      simp only [cuentaValidas, List.countP_cons, List.countP_nil, hc, if_true, if_false,
        Bool.false_eq_true, ite_true, ite_false] at hi hset ⊢ <;>
      omega
  | falloVeTerm i hci hq ht =>
    dsimp only
    have hset := cuenta_enManos_set f s.cons i Cons.run Cons.saw hci
    simp only [valHold] at hset
    omega
  | veVacia i hci hq =>
    dsimp only
    have hset := cuenta_enManos_set f s.cons i Cons.saw Cons.exitd hci
    simp only [valHold] at hset
    omega
  | veNoVacia i l ls hci hq =>
    dsimp only
    have hset := cuenta_enManos_set f s.cons i Cons.saw Cons.run hci
    simp only [valHold] at hset
    omega
  | procesaCuenta i l b hci hfb =>
    dsimp only
    rw [suma_bump s.hist b (hf l b hfb)]
    have hset := cuenta_enManos_set f s.cons i (Cons.hold l) Cons.run hci
    simp only [valHold, hfb, esConteo, if_true, ite_true] at hset
    omega
  | procesaNada i l hci hfb =>
    dsimp only
    have hset := cuenta_enManos_set f s.cons i (Cons.hold l) Cons.run hci
    simp only [valHold, hfb, esConteo, Bool.false_eq_true, if_false, ite_false] at hset
    omega
  | procesaExcepcion i l hci hfb =>
    dsimp only
    have hset := cuenta_enManos_set f s.cons i (Cons.hold l) Cons.stuck hci
    simp only [valHold, hfb, esConteo, Bool.false_eq_true, if_false, ite_false] at hset
    omega

theorem paso_salida {f : List Char → ProcOutcome} {cap : Nat} {s s2 : PState}
    (hp : Paso f cap s s2) (hb : InvBasica s) (hs : InvSalida s) : InvSalida s2 := by
  unfold InvSalida at hs ⊢
  cases hp with
  | push l ls hin ht hq =>
    intro he _
    obtain ⟨c, hc, hce⟩ := he
    have h2 := hb.2 c hc (Or.inr hce)
    rw [ht] at h2
    cases h2
  | signal hin ht => exact hs
  | pop i l ls hci hq =>
    intro _ hall
    exact absurd (set_no_exitd s.cons i Cons.run (Cons.hold l) hci (by simp) hall) id
  | falloVeTerm i hci hq ht =>
    intro _ hall
    exact absurd (set_no_exitd s.cons i Cons.run Cons.saw hci (by simp) hall) id
  | veVacia i hci hq =>
    intro _ _
    exact hq
  | veNoVacia i l ls hci hq =>
    intro _ hall
    exact absurd (set_no_exitd s.cons i Cons.saw Cons.run hci (by simp) hall) id
  | procesaCuenta i l b hci hfb =>
    intro _ hall
    exact absurd (set_no_exitd s.cons i (Cons.hold l) Cons.run hci (by simp) hall) id
  | procesaNada i l hci hfb =>
    intro _ hall
    exact absurd (set_no_exitd s.cons i (Cons.hold l) Cons.run hci (by simp) hall) id
  | procesaExcepcion i l hci hfb =>
    intro _ hall
    exact absurd (set_no_exitd s.cons i (Cons.hold l) Cons.stuck hci (by simp) hall) id

theorem alcanzable_inv {f : List Char → ProcOutcome} {cap : Nat} {K : Nat} {s0 s : PState}
    (hf : ∀ l b, f l = ProcOutcome.conteo b → b ≤ 130)
    (hr : Alcanzable f cap s0 s)
    (hi : InvBasica s0 ∧ InvConteo f K s0 ∧ InvSalida s0) :
    InvBasica s ∧ InvConteo f K s ∧ InvSalida s := by
  induction hr with
  | refl => exact hi
  | tail hr2 hp ih =>
    exact ⟨paso_basica hp ih.1, paso_conteo hf hp ih.2.1, paso_salida hp ih.1 ih.2.2⟩

theorem alcanzable_cons_length {f : List Char → ProcOutcome} {cap : Nat} {s0 s : PState}
    (hr : Alcanzable f cap s0 s) : s.cons.length = s0.cons.length := by
  induction hr with
  | refl => rfl
  | tail hr2 hp ih =>
    rw [← ih]
    cases hp <;> simp [List.length_set]

theorem inicial_inv (f : List Char → ProcOutcome) (lineas : List (List Char)) (n : Nat) :
    InvBasica (inicial lineas n) ∧ InvConteo f (cuentaValidas f lineas) (inicial lineas n) ∧
      InvSalida (inicial lineas n) := by
  unfold InvBasica InvConteo InvSalida inicial
  dsimp only
  refine ⟨⟨fun h => absurd h (by simp), fun c hc hor => ?_⟩, ?_, fun he hall => ?_⟩
  · rw [List.eq_of_mem_replicate hc] at hor
    rcases hor with h | h <;> cases h
  · rw [enManos_replicate]
    simp [sumaHist, cuentaValidas]
  · obtain ⟨c, hc, hce⟩ := he
    rw [List.eq_of_mem_replicate hc] at hce

theorem outcome_cota (hoy : FechaLocal) :
    ∀ l b, outcome hoy l = ProcOutcome.conteo b → b ≤ 130 := by
  intro l b h
  unfold outcome at h
  by_cases he : l.isEmpty
  · rw [if_pos he] at h; cases h
  · rw [if_neg he] at h
    cases hc : calcular hoy l with
    | error e => rw [hc] at h; cases h
    | ok e =>
      rw [hc] at h
      dsimp only at h
      by_cases h1 : (0 : ℚ) ≤ e
      · rw [if_pos h1] at h
        by_cases h2 : 0 ≤ qtrunc e ∧ qtrunc e ≤ 130
        · rw [if_pos h2] at h
          cases h
          omega
        · rw [if_neg h2] at h; cases h
      · rw [if_neg h1] at h; cases h

/-- Claim C1: for every ingested line list, queue capacity, clock date and
consumer count `n > 0`, in every reachable pipeline state in which every
consumer has exited its loop (the `Done` state), the sum over all buckets of
the histogram equals exactly the number of input lines whose age computation
yields a valid age (`≥ 0`, never NaN) with truncated integer part in
`[0, 130]` — no update lost, no line counted twice, for every interleaving. -/
theorem conservacion_histograma (hoy : FechaLocal) (cap n : Nat)
    (lineas : List (List Char)) (hn : 0 < n) (s : PState)
    (hr : Alcanzable (outcome hoy) cap (inicial lineas n) s)
    (hdone : ∀ c ∈ s.cons, c = Cons.exitd) :
    sumaHist s.hist = cuentaValidas (outcome hoy) lineas := by
  obtain ⟨hb, hc, hs⟩ := alcanzable_inv (outcome_cota hoy) hr
    (inicial_inv (outcome hoy) lineas n)
  have hlen : s.cons.length = n := by
    rw [alcanzable_cons_length hr]; simp [inicial]
  have hne : s.cons ≠ [] := by
    intro he; rw [he] at hlen; simp at hlen; omega
  obtain ⟨c, hcm⟩ := List.exists_mem_of_ne_nil s.cons hne
  have hterm : s.term = true := hb.2 c hcm (Or.inr (hdone c hcm))
  have hinput : s.input = [] := hb.1 hterm
  have hqueue : s.queue = [] := hs ⟨c, hcm, hdone c hcm⟩ hdone
  have hmanos : enManos s.cons = [] := by
    refine List.filterMap_eq_nil_iff.mpr ?_
    intro c2 hc2
    rw [hdone c2 hc2]
    rfl
  unfold InvConteo at hc
  rw [hinput, hqueue, hmanos] at hc
  simpa [cuentaValidas] using hc

/-- Witness for C1: a concrete three-step run with one consumer and an empty
input reaches Done with histogram total 0 = 0 valid lines. -/
theorem conservacion_histograma_testigo :
    sumaHist (PState.hist { input := [], term := true, queue := [], cons := [Cons.exitd], hist := (fun _ => 0) }) =
      cuentaValidas (outcome ⟨2024, 11, 1⟩) [] := by
  have p1 : Paso (outcome ⟨2024, 11, 1⟩) 0 (inicial [] 1) { input := [], term := true, queue := [], cons := [Cons.run], hist := (fun _ => 0) } :=
    Paso.signal (inicial [] 1) rfl rfl
  have p2 : Paso (outcome ⟨2024, 11, 1⟩) 0 { input := [], term := true, queue := [], cons := [Cons.run], hist := (fun _ => 0) } { input := [], term := true, queue := [], cons := [Cons.saw], hist := (fun _ => 0) } :=
    Paso.falloVeTerm _ 0 rfl rfl rfl
  have p3 : Paso (outcome ⟨2024, 11, 1⟩) 0 { input := [], term := true, queue := [], cons := [Cons.saw], hist := (fun _ => 0) } { input := [], term := true, queue := [], cons := [Cons.exitd], hist := (fun _ => 0) } :=
    Paso.veVacia _ 0 rfl rfl
  refine conservacion_histograma ⟨2024, 11, 1⟩ 0 1 [] (by norm_num) _
    (Relation.ReflTransGen.tail (Relation.ReflTransGen.tail
      (Relation.ReflTransGen.tail Relation.ReflTransGen.refl p1) p2) p3) ?_
  intro c hcm
  simpa using hcm

theorem alcanzable_basica {f : List Char → ProcOutcome} {cap : Nat} {s0 s : PState}
    (hr : Alcanzable f cap s0 s) (hb : InvBasica s0) : InvBasica s := by
  induction hr with
  | refl => exact hb
  | tail hr2 hp ih => exact paso_basica hp ih

/-- Claim C8: a consumer never exits its loop except by the step that, after
a failed pop that observed the termination signal set, also observes the
queue empty; at that exit instant the consumer was in the post-`terminado`
check state, the queue is empty, the flag is set, and the producer has no
input left to push — so no consumer stops while the producer may still push
or items remain buffered. -/
theorem salida_consumidor (f : List Char → ProcOutcome) (cap n : Nat)
    (lineas : List (List Char)) (s s2 : PState) (i : Nat)
    (hr : Alcanzable f cap (inicial lineas n) s) (hp : Paso f cap s s2)
    (hnow : s.cons.get? i ≠ some Cons.exitd)
    (hnext : s2.cons.get? i = some Cons.exitd) :
    s.cons.get? i = some Cons.saw ∧ s.queue = [] ∧ s.term = true ∧ s.input = [] := by
  have hb : InvBasica s := alcanzable_basica hr (inicial_inv f lineas n).1
  cases hp with
  | push l ls hin ht hq => exact absurd hnext hnow
  | signal hin ht => exact absurd hnext hnow
  | pop j l ls hci hq =>
    dsimp only at hnext
    by_cases hij : j = i
    · subst hij
      rw [List.get?_set_eq_of_lt _ ((List.get?_eq_some.mp hci).1)] at hnext
      cases hnext
    · rw [List.get?_set_ne _ _ hij] at hnext
      exact absurd hnext hnow
  | falloVeTerm j hci hq ht =>
    dsimp only at hnext
    by_cases hij : j = i
    · subst hij
      rw [List.get?_set_eq_of_lt _ ((List.get?_eq_some.mp hci).1)] at hnext
      cases hnext
    · rw [List.get?_set_ne _ _ hij] at hnext
      exact absurd hnext hnow
  | veVacia j hci hq =>
    dsimp only at hnext
    by_cases hij : j = i
    · subst hij
      have hterm : s.term = true := hb.2 Cons.saw (List.get?_mem hci) (Or.inl rfl)
      exact ⟨hci, hq, hterm, hb.1 hterm⟩
    · rw [List.get?_set_ne _ _ hij] at hnext
      exact absurd hnext hnow
  | veNoVacia j l ls hci hq =>
    dsimp only at hnext
    by_cases hij : j = i
    · subst hij
      rw [List.get?_set_eq_of_lt _ ((List.get?_eq_some.mp hci).1)] at hnext
      cases hnext
    · rw [List.get?_set_ne _ _ hij] at hnext
      exact absurd hnext hnow
  | procesaCuenta j l b hci hfb =>
    dsimp only at hnext
    by_cases hij : j = i
    · subst hij
      rw [List.get?_set_eq_of_lt _ ((List.get?_eq_some.mp hci).1)] at hnext
      cases hnext
    · rw [List.get?_set_ne _ _ hij] at hnext
      exact absurd hnext hnow
  | procesaNada j l hci hfb =>
    dsimp only at hnext
    by_cases hij : j = i
    · subst hij
      rw [List.get?_set_eq_of_lt _ ((List.get?_eq_some.mp hci).1)] at hnext
      cases hnext
    · rw [List.get?_set_ne _ _ hij] at hnext
      exact absurd hnext hnow
  | procesaExcepcion j l hci hfb =>
    dsimp only at hnext
    by_cases hij : j = i
    · subst hij
      rw [List.get?_set_eq_of_lt _ ((List.get?_eq_some.mp hci).1)] at hnext
      cases hnext
    · rw [List.get?_set_ne _ _ hij] at hnext
      exact absurd hnext hnow

/-- Witness for C8: the concrete exit step of a one-consumer run, taken from
the state that observed the set flag, with the queue empty and input drained. -/
theorem salida_consumidor_testigo :
    (PState.cons { input := [], term := true, queue := [], cons := [Cons.saw], hist := (fun _ => 0) }).get? 0 = some Cons.saw ∧
    (PState.queue { input := [], term := true, queue := [], cons := [Cons.saw], hist := (fun _ => 0) }) = [] ∧
    (PState.term { input := [], term := true, queue := [], cons := [Cons.saw], hist := (fun _ => 0) }) = true ∧
    (PState.input { input := [], term := true, queue := [], cons := [Cons.saw], hist := (fun _ => 0) }) = [] := by
  have p1 : Paso (outcome ⟨2024, 11, 1⟩) 0 (inicial [] 1) { input := [], term := true, queue := [], cons := [Cons.run], hist := (fun _ => 0) } :=
    Paso.signal (inicial [] 1) rfl rfl
  have p2 : Paso (outcome ⟨2024, 11, 1⟩) 0 { input := [], term := true, queue := [], cons := [Cons.run], hist := (fun _ => 0) } { input := [], term := true, queue := [], cons := [Cons.saw], hist := (fun _ => 0) } :=
    Paso.falloVeTerm _ 0 rfl rfl rfl
  have p3 : Paso (outcome ⟨2024, 11, 1⟩) 0 { input := [], term := true, queue := [], cons := [Cons.saw], hist := (fun _ => 0) } { input := [], term := true, queue := [], cons := [Cons.exitd], hist := (fun _ => 0) } :=
    Paso.veVacia _ 0 rfl rfl
  exact salida_consumidor (outcome ⟨2024, 11, 1⟩) 0 1 [] _ _ 0
    (Relation.ReflTransGen.tail (Relation.ReflTransGen.tail Relation.ReflTransGen.refl p1) p2)
    p3 (by simp) rfl
